import Mathlib

/-!
Verification of the `last30days-skill` HTTP retry layer and WebSearch
deduplication, shallowly embedded from `scripts/lib/http.py` and
`scripts/lib/websearch.py`.

Python floats appearing in the backoff policy (2.0, 5.0, 60.0, 0.25 and the
values flowing through `min`, `*`, `+`) are modeled as rationals: every
constant and every operation used by the policy is exact at these values, so
the rational model is observationally faithful.  The jitter draw
`random.random()` is modeled as an explicit parameter `r`.
-/

namespace Last30

/-- Constant `RETRY_BASE_DELAY = 2.0` from http.py. -/
def RETRY_BASE_DELAY : ℚ := 2

/-- Constant `RETRY_429_BASE_DELAY = 5.0` from http.py. -/
def RETRY_429_BASE_DELAY : ℚ := 5

/-- Constant `RETRY_MAX_DELAY = 60.0` from http.py. -/
def RETRY_MAX_DELAY : ℚ := 60

/-- Constant `MAX_RETRIES = 3` from http.py. -/
def MAX_RETRIES : ℤ := 3

/-- Embedding of `_get_retry_delay(attempt, is_rate_limit, retry_after)` from
http.py, with the draw of `random.random()` made explicit as `r`:

```
if retry_after is not None:
    delay = min(retry_after, RETRY_MAX_DELAY)
    return delay
base = RETRY_429_BASE_DELAY if is_rate_limit else RETRY_BASE_DELAY
delay = base * (2 ** attempt)
delay = min(delay, RETRY_MAX_DELAY)
jitter = delay * 0.25 * random.random()
return delay + jitter
```
-/
def _get_retry_delay (attempt : ℕ) (is_rate_limit : Bool)
    (retry_after : Option ℚ) (r : ℚ) : ℚ :=
  match retry_after with
  | some ra => min ra RETRY_MAX_DELAY
  | none =>
    let base := if is_rate_limit then RETRY_429_BASE_DELAY else RETRY_BASE_DELAY
    let delay := min (base * (2 ^ attempt)) RETRY_MAX_DELAY
    let jitter := delay * (1/4) * r
    delay + jitter

example : _get_retry_delay 0 true none 0 = 5 := by norm_num [_get_retry_delay, RETRY_429_BASE_DELAY, RETRY_MAX_DELAY]
example : _get_retry_delay 1 true none 0 = 10 := by norm_num [_get_retry_delay, RETRY_429_BASE_DELAY, RETRY_MAX_DELAY]
example : _get_retry_delay 0 true (some 30) 1 = 30 := by norm_num [_get_retry_delay, RETRY_MAX_DELAY]
example : _get_retry_delay 0 false (some 120) 1 = 60 := by norm_num [_get_retry_delay, RETRY_MAX_DELAY]
example : _get_retry_delay 5 true none 0 = _get_retry_delay 5 false none 0 := by
  norm_num [_get_retry_delay, RETRY_429_BASE_DELAY, RETRY_BASE_DELAY, RETRY_MAX_DELAY]

/-- The base selected for the exponential path, `RETRY_429_BASE_DELAY` for a
rate limit and `RETRY_BASE_DELAY` otherwise. -/
def retryBase (is_rate_limit : Bool) : ℚ :=
  if is_rate_limit then RETRY_429_BASE_DELAY else RETRY_BASE_DELAY

lemma get_retry_delay_none (a : ℕ) (irl : Bool) (r : ℚ) :
    _get_retry_delay a irl none r =
      min (retryBase irl * 2 ^ a) RETRY_MAX_DELAY
        + min (retryBase irl * 2 ^ a) RETRY_MAX_DELAY * (1/4) * r := by
  simp [_get_retry_delay, retryBase]

lemma retryBase_pos (irl : Bool) : 0 < retryBase irl := by
  cases irl <;> norm_num [retryBase, RETRY_BASE_DELAY, RETRY_429_BASE_DELAY]

lemma capped_pos (a : ℕ) (irl : Bool) :
    0 < min (retryBase irl * 2 ^ a) RETRY_MAX_DELAY := by
  apply lt_min
  · exact mul_pos (retryBase_pos irl) (by positivity)
  · norm_num [RETRY_MAX_DELAY]

/-- C2: When a server hint `h` is supplied, `_get_retry_delay` returns
exactly `min(h, RETRY_MAX_DELAY)`, independent of the attempt index, the
rate-limit flag and the random draw (so no jitter is added and the result is
deterministic for fixed `h`). -/
theorem retry_delay_hint_exact (a : ℕ) (irl : Bool) (h r : ℚ) :
    _get_retry_delay a irl (some h) r = min h RETRY_MAX_DELAY := rfl

/-- C3: With no server hint and jitter draw 0, the delay is exactly
`min(base * 2^a, 60)` with base 2 for non-rate-limit and base 5 for
rate-limit errors, and the non-rate-limit un-jittered delay is monotonically
non-decreasing in the attempt index. -/
theorem retry_delay_unjittered_exponential :
    (∀ a : ℕ, _get_retry_delay a false none 0 = min (2 * 2 ^ a) 60)
    ∧ (∀ a b : ℕ, a ≤ b →
        _get_retry_delay a false none 0 ≤ _get_retry_delay b false none 0)
    ∧ (∀ a : ℕ, _get_retry_delay a true none 0 = min (5 * 2 ^ a) 60) := by
  refine ⟨?_, ?_, ?_⟩
  · intro a
    simp [_get_retry_delay, RETRY_BASE_DELAY, RETRY_MAX_DELAY]
  · intro a b hab
    simp only [_get_retry_delay, RETRY_BASE_DELAY, RETRY_MAX_DELAY]
    have h2 : (2:ℚ) ^ a ≤ 2 ^ b := by
      apply pow_le_pow_right₀ (by norm_num) hab
    simp only [mul_zero, zero_mul, add_zero, Bool.false_eq_true, if_false]
    exact min_le_min (by linarith) le_rfl
  · intro a
    simp [_get_retry_delay, RETRY_429_BASE_DELAY, RETRY_MAX_DELAY]

/-- Witness for the monotonicity hypothesis of `retry_delay_unjittered_exponential`
at the concrete pair of attempt indices 1 ≤ 2. -/
theorem retry_delay_unjittered_exponential_witness :
    _get_retry_delay 1 false none 0 ≤ _get_retry_delay 2 false none 0 :=
  retry_delay_unjittered_exponential.2.1 1 2 (by norm_num)

/-- C5: With no server hint and a jitter fraction `r ∈ [0,1]`, the delay
lies in `[capped_base, capped_base * 1.25]` where
`capped_base = min(base * 2^a, 60)`; the upper bound is attained exactly when
`r = 1`, and `r = 0` reproduces exactly `capped_base`. -/
theorem retry_delay_jitter_bounds (a : ℕ) (irl : Bool) (r : ℚ)
    (hr0 : 0 ≤ r) (hr1 : r ≤ 1) :
    min (retryBase irl * 2 ^ a) RETRY_MAX_DELAY ≤ _get_retry_delay a irl none r
    ∧ _get_retry_delay a irl none r
        ≤ min (retryBase irl * 2 ^ a) RETRY_MAX_DELAY * (5/4)
    ∧ (_get_retry_delay a irl none r
        = min (retryBase irl * 2 ^ a) RETRY_MAX_DELAY * (5/4) ↔ r = 1)
    ∧ (r = 0 → _get_retry_delay a irl none r
        = min (retryBase irl * 2 ^ a) RETRY_MAX_DELAY) := by
  have hc := capped_pos a irl
  set c := min (retryBase irl * 2 ^ a) RETRY_MAX_DELAY with hcdef
  rw [get_retry_delay_none, ← hcdef]
  refine ⟨?_, ?_, ?_, ?_⟩
  · nlinarith
  · nlinarith
  · constructor
    · intro h
      have hne : c * (1/4) ≠ 0 := by positivity
      exact mul_left_cancel₀ hne (by linarith : c * (1/4) * r = c * (1/4) * 1)
    · intro h; subst h; ring
  · intro h; subst h; ring

/-- Witness for `retry_delay_jitter_bounds` at attempt 0, non-rate-limit,
jitter draw 1/2: the delay 2.25 lies in [2, 2.5], is not the upper bound,
and the draw is not 0. -/
theorem retry_delay_jitter_bounds_witness :
    min (retryBase false * 2 ^ 0) RETRY_MAX_DELAY
      ≤ _get_retry_delay 0 false none (1/2)
    ∧ _get_retry_delay 0 false none (1/2)
        ≤ min (retryBase false * 2 ^ 0) RETRY_MAX_DELAY * (5/4) :=
  ⟨(retry_delay_jitter_bounds 0 false (1/2) (by norm_num) (by norm_num)).1,
   (retry_delay_jitter_bounds 0 false (1/2) (by norm_num) (by norm_num)).2.1⟩

/-- C7 (failing input): The claim asserts the returned delay is
non-negative for every `retry_after` value that `float()` accepts, including
negative numbers; but at `retry_after = -5` the code computes
`min(-5, 60) = -5`, a negative delay. -/
theorem retry_delay_negative_hint_negative :
    _get_retry_delay 0 false (some (-5)) 0 = -5 ∧ _get_retry_delay 0 false (some (-5)) 0 < 0 := by
  constructor
  · norm_num [_get_retry_delay, RETRY_MAX_DELAY]
  · norm_num [_get_retry_delay, RETRY_MAX_DELAY]

/-- C8 (counterexample): The claim says the rate-limit un-jittered delay
is strictly greater than the non-rate-limit one at every attempt index; at
attempt 5 both exponentials exceed the 60s cap (`2*32 = 64`, `5*32 = 160`),
so both delays equal 60 and the strict inequality fails. -/
theorem retry_delay_rate_limit_not_strict_at_5 :
    ¬ (_get_retry_delay 5 false none 0 < _get_retry_delay 5 true none 0) := by
  norm_num [_get_retry_delay, RETRY_BASE_DELAY, RETRY_429_BASE_DELAY, RETRY_MAX_DELAY]

/-- C8 (amended): With no server hint, the rate-limit un-jittered delay is
always at least the non-rate-limit one at equal attempt index; it is strictly
greater exactly while the non-rate-limit exponential is below the 60s cap
(attempts 0..4), and the two are equal from attempt 5 on, where both hit the
cap. -/
theorem retry_delay_rate_limit_ge :
    (∀ a : ℕ, _get_retry_delay a false none 0 ≤ _get_retry_delay a true none 0)
    ∧ (∀ a : ℕ, a ≤ 4 →
        _get_retry_delay a false none 0 < _get_retry_delay a true none 0)
    ∧ (∀ a : ℕ, 5 ≤ a →
        _get_retry_delay a false none 0 = _get_retry_delay a true none 0) := by
  refine ⟨?_, ?_, ?_⟩
  · intro a
    simp only [_get_retry_delay, RETRY_BASE_DELAY, RETRY_429_BASE_DELAY, RETRY_MAX_DELAY,
      Bool.false_eq_true, if_false, if_true, mul_zero, zero_mul, add_zero]
    have h2 : (0:ℚ) < 2 ^ a := by positivity
    exact min_le_min (by linarith) le_rfl
  · intro a ha
    interval_cases a <;>
      norm_num [_get_retry_delay, RETRY_BASE_DELAY, RETRY_429_BASE_DELAY, RETRY_MAX_DELAY]
  · intro a ha
    have h32 : (32:ℚ) ≤ 2 ^ a := by
      calc (32:ℚ) = 2 ^ 5 := by norm_num
        _ ≤ 2 ^ a := by apply pow_le_pow_right₀ (by norm_num) ha
    simp only [_get_retry_delay, RETRY_BASE_DELAY, RETRY_429_BASE_DELAY, RETRY_MAX_DELAY,
      Bool.false_eq_true, if_false, if_true, mul_zero, zero_mul, add_zero]
    rw [min_eq_right (by linarith), min_eq_right (by linarith)]

/-- Witness for `retry_delay_rate_limit_ge`: strict inequality at attempt 3
and equality at attempt 6. -/
theorem retry_delay_rate_limit_ge_witness :
    _get_retry_delay 3 false none 0 < _get_retry_delay 3 true none 0
    ∧ _get_retry_delay 6 false none 0 = _get_retry_delay 6 true none 0 :=
  ⟨retry_delay_rate_limit_ge.2.1 3 (by norm_num),
   retry_delay_rate_limit_ge.2.2 6 (by norm_num)⟩

/-- Embedding of the `HTTPError` exception class from http.py: a message plus
optional status code, body and retry-after hint (all defaulting to `None`). -/
structure HTTPError where
  message : String
  status_code : Option ℤ
  body : Option String
  retry_after : Option ℚ
deriving DecidableEq, Repr

/-- The result of one network attempt inside `request`'s loop, as the Python
`try` block distinguishes it: a successful JSON-decoded body, an
`urllib.error.HTTPError` (carrying the status code, reason, optional body and
the already-parsed `Retry-After` value), an `urllib.error.URLError`, a
`json.JSONDecodeError` on a 2xx body, or a socket-level
`OSError`/`TimeoutError`/`ConnectionResetError` (carrying the exception type
name and message). -/
inductive AttemptRes (α : Type) where
  | success (v : α)
  | httpErr (code : ℤ) (reason : String) (body : Option String) (retryAfter : Option ℚ)
  | urlErr (reason : String)
  | jsonErr (msg : String)
  | connErr (ename : String) (msg : String)
deriving DecidableEq, Repr

/-- The observable outcome of a call to `request`: a returned JSON value or a
raised `HTTPError`. -/
inductive ReqResult (α : Type) where
  | ok (v : α)
  | raised (e : HTTPError)
deriving DecidableEq, Repr

/-- Observable trace of one `request` call: how many network attempts were
made, the sequence of `time.sleep` delays, and the final result. -/
structure Trace (α : Type) where
  attemptsMade : ℕ
  sleeps : List ℚ
  result : ReqResult α
deriving DecidableEq, Repr

/-- The `HTTPError` value `request` constructs for each failing attempt kind,
mirroring the message formats in http.py (`success` is never consulted). -/
def errOfAttempt {α : Type} : AttemptRes α → HTTPError
  | .success _ => ⟨"", none, none, none⟩
  | .httpErr code reason body ra =>
      ⟨"HTTP " ++ toString code ++ ": " ++ reason, some code, body, ra⟩
  | .urlErr reason => ⟨"URL Error: " ++ reason, none, none, none⟩
  | .jsonErr msg => ⟨"Invalid JSON response: " ++ msg, none, none, none⟩
  | .connErr ename msg =>
      ⟨"Connection error: " ++ ename ++ ": " ++ msg, none, none, none⟩

/-- The `400 <= e.code < 500 and e.code != 429` test of http.py. -/
def isClientError (code : ℤ) : Bool :=
  400 ≤ code && code < 500 && code != 429

/-- Attempt results the loop retries (429/5xx HTTP errors, URL errors,
connection errors). -/
def isRetryable {α : Type} : AttemptRes α → Bool
  | .httpErr code _ _ _ => !(isClientError code)
  | .urlErr _ => true
  | .connErr _ _ => true
  | .success _ => false
  | .jsonErr _ => false

/-- Attempt results `request` raises immediately without consuming further
budget: non-429 4xx responses and JSON decoding failures. -/
def isImmediateFailure {α : Type} : AttemptRes α → Bool
  | .httpErr code _ _ _ => isClientError code
  | .jsonErr _ => true
  | .success _ => false
  | .urlErr _ => false
  | .connErr _ _ => false

/-- The `HTTPError("Request failed with no error details")` raised when the
loop body never ran (or, unreachably, recorded no error). -/
def noDetailsError : HTTPError :=
  ⟨"Request failed with no error details", none, none, none⟩

/-- Embedding of the `for attempt in range(retries)` loop of `request` in
http.py.  `outcome a` is the result of the `a`-th network attempt and
`rand a` the value `random.random()` would return for the jitter of the
delay after attempt `a`.  `fuel` is the number of loop iterations remaining
(initially `retries`), `a` the current attempt index, `lastError` the
`last_error` variable.  When `fuel = 0` the loop ends and the function
raises `last_error` if set, else the no-details error.  In each iteration:
a success returns; a non-429 4xx or a JSON decode error raises immediately;
a retryable failure records `last_error` and, when `attempt < retries - 1`
(i.e. `fuel > 1`), sleeps for `_get_retry_delay(...)` before the next
iteration. -/
def requestGo {α : Type} (outcome : ℕ → AttemptRes α) (rand : ℕ → ℚ) :
    (fuel : ℕ) → (a : ℕ) → (lastError : Option HTTPError) → Trace α
  | 0, _, lastError => ⟨0, [], .raised (lastError.getD noDetailsError)⟩
  | fuel + 1, a, _ =>
    match outcome a with
    | .success v => ⟨1, [], .ok v⟩
    | .jsonErr msg => ⟨1, [], .raised (errOfAttempt (AttemptRes.jsonErr (α := α) msg))⟩
    | .httpErr code reason body ra =>
      let e := errOfAttempt (AttemptRes.httpErr (α := α) code reason body ra)
      if isClientError code then ⟨1, [], .raised e⟩
      else
        let d := _get_retry_delay a (code == 429) ra (rand a)
        let t := requestGo outcome rand fuel (a + 1) (some e)
        ⟨t.attemptsMade + 1, (if fuel = 0 then [] else [d]) ++ t.sleeps, t.result⟩
    | .urlErr reason =>
      let e := errOfAttempt (AttemptRes.urlErr (α := α) reason)
      let d := _get_retry_delay a false none (rand a)
      let t := requestGo outcome rand fuel (a + 1) (some e)
      ⟨t.attemptsMade + 1, (if fuel = 0 then [] else [d]) ++ t.sleeps, t.result⟩
    | .connErr ename msg =>
      let e := errOfAttempt (AttemptRes.connErr (α := α) ename msg)
      let d := _get_retry_delay a false none (rand a)
      let t := requestGo outcome rand fuel (a + 1) (some e)
      ⟨t.attemptsMade + 1, (if fuel = 0 then [] else [d]) ++ t.sleeps, t.result⟩

/-- Embedding of `request(..., retries=retries)` from http.py: run the loop
from attempt 0 with `last_error = None`.  `retries` is a Python `int`;
`range(retries)` is empty for `retries ≤ 0`. -/
def request {α : Type} (outcome : ℕ → AttemptRes α) (rand : ℕ → ℚ)
    (retries : ℤ) : Trace α :=
  requestGo outcome rand retries.toNat 0 none

example :
    request (fun _ => AttemptRes.success (α := ℕ) 7) (fun _ => 0) 3
      = ⟨1, [], .ok 7⟩ := by
  simp [request, requestGo]

example :
    request (fun _ => AttemptRes.httpErr (α := ℕ) 500 "ISE" none none) (fun _ => 0) 3
      = ⟨3, [2, 4], .raised ⟨"HTTP 500: ISE", some 500, none, none⟩⟩ := by
  norm_num [request, requestGo, errOfAttempt, isClientError, _get_retry_delay,
    RETRY_BASE_DELAY, RETRY_429_BASE_DELAY, RETRY_MAX_DELAY]
  decide

example :
    request (fun _ => AttemptRes.httpErr (α := ℕ) 404 "NF" none none) (fun _ => 0) 3
      = ⟨1, [], .raised ⟨"HTTP 404: NF", some 404, none, none⟩⟩ := by
  norm_num [request, requestGo, errOfAttempt, isClientError]
  decide

lemma requestGo_zero {α : Type} (outcome : ℕ → AttemptRes α) (rand : ℕ → ℚ)
    (a : ℕ) (le : Option HTTPError) :
    requestGo outcome rand 0 a le = ⟨0, [], .raised (le.getD noDetailsError)⟩ := rfl

lemma requestGo_immediate {α : Type} (outcome : ℕ → AttemptRes α) (rand : ℕ → ℚ)
    (fuel a : ℕ) (le : Option HTTPError)
    (hi : isImmediateFailure (outcome a) = true) :
    requestGo outcome rand (fuel + 1) a le = ⟨1, [], .raised (errOfAttempt (outcome a))⟩ := by
  cases ho : outcome a with
  | success v => rw [ho] at hi; simp [isImmediateFailure] at hi
  | urlErr reason => rw [ho] at hi; simp [isImmediateFailure] at hi
  | connErr ename msg => rw [ho] at hi; simp [isImmediateFailure] at hi
  | jsonErr msg => simp [requestGo, ho, errOfAttempt]
  | httpErr code reason body ra =>
    rw [ho] at hi; simp only [isImmediateFailure] at hi
    simp [requestGo, ho, hi, errOfAttempt]

lemma requestGo_retryable {α : Type} (outcome : ℕ → AttemptRes α) (rand : ℕ → ℚ)
    (fuel a : ℕ) (le : Option HTTPError)
    (hr : isRetryable (outcome a) = true) :
    (requestGo outcome rand (fuel + 1) a le).attemptsMade
        = (requestGo outcome rand fuel (a + 1)
            (some (errOfAttempt (outcome a)))).attemptsMade + 1
    ∧ (requestGo outcome rand (fuel + 1) a le).sleeps.length
        = (if fuel = 0 then 0 else 1)
          + (requestGo outcome rand fuel (a + 1)
              (some (errOfAttempt (outcome a)))).sleeps.length
    ∧ (requestGo outcome rand (fuel + 1) a le).result
        = (requestGo outcome rand fuel (a + 1)
            (some (errOfAttempt (outcome a)))).result := by
  cases ho : outcome a with
  | success v => rw [ho] at hr; simp [isRetryable] at hr
  | jsonErr msg => rw [ho] at hr; simp [isRetryable] at hr
  | httpErr code reason body ra =>
    rw [ho] at hr
    simp only [isRetryable, Bool.not_eq_true'] at hr
    refine ⟨?_, ?_, ?_⟩ <;>
      simp [requestGo, ho, hr, apply_ite List.length]
  | urlErr reason =>
    refine ⟨?_, ?_, ?_⟩ <;>
      simp [requestGo, ho, apply_ite List.length]
  | connErr ename msg =>
    refine ⟨?_, ?_, ?_⟩ <;>
      simp [requestGo, ho, apply_ite List.length]

/-- Prefix induction: if the first `k` attempts are retryable and attempt `k`
(still within the budget) fails immediately, the loop stops right there. -/
lemma requestGo_immediate_after_retryables {α : Type}
    (outcome : ℕ → AttemptRes α) (rand : ℕ → ℚ) :
    ∀ (k fuel s : ℕ) (le : Option HTTPError),
      (∀ i, i < k → isRetryable (outcome (s + i)) = true) →
      k < fuel →
      isImmediateFailure (outcome (s + k)) = true →
      (requestGo outcome rand fuel s le).attemptsMade = k + 1
      ∧ (requestGo outcome rand fuel s le).sleeps.length = k
      ∧ (requestGo outcome rand fuel s le).result
          = .raised (errOfAttempt (outcome (s + k))) := by
  intro k
  induction k with
  | zero =>
    intro fuel s le _ hlt hi
    obtain ⟨f, rfl⟩ : ∃ f, fuel = f + 1 := ⟨fuel - 1, by omega⟩
    rw [requestGo_immediate outcome rand f s le (by simpa using hi)]
    simp
  | succ k ih =>
    intro fuel s le hpre hlt hi
    obtain ⟨f, rfl⟩ : ∃ f, fuel = f + 1 := ⟨fuel - 1, by omega⟩
    have hr0 : isRetryable (outcome s) = true := by
      simpa using hpre 0 (by omega)
    obtain ⟨ha, hs, hres⟩ := requestGo_retryable outcome rand f s le hr0
    have ihapp := ih f (s + 1) (some (errOfAttempt (outcome s)))
      (fun i hik => by
        have := hpre (i + 1) (by omega)
        simpa [Nat.add_assoc, Nat.add_comm 1 i] using this)
      (by omega)
      (by simpa [Nat.add_assoc, Nat.add_comm 1 k] using hi)
    have hf : f ≠ 0 := by omega
    refine ⟨?_, ?_, ?_⟩
    · rw [ha, ihapp.1]
    · rw [hs, ihapp.2.1]; simp [hf]; omega
    · rw [hres, ihapp.2.2]
      have : s + 1 + k = s + (k + 1) := by omega
      rw [this]

/-- C1: If the first `k` attempts all fail retryably and attempt `k`
(within the budget `retries`) yields a non-429 4xx response or a JSON decode
failure, `request` raises the `HTTPError` built from attempt `k` immediately:
exactly `k + 1` attempts are made (none after it, however much budget
remains) and exactly `k` backoff sleeps occur (none after attempt `k`). -/
theorem request_immediate_failure_no_retry {α : Type}
    (outcome : ℕ → AttemptRes α) (rand : ℕ → ℚ) (retries : ℤ) (k : ℕ)
    (hpre : ∀ i, i < k → isRetryable (outcome i) = true)
    (hlt : (k : ℤ) < retries)
    (hi : isImmediateFailure (outcome k) = true) :
    (request outcome rand retries).attemptsMade = k + 1
    ∧ (request outcome rand retries).sleeps.length = k
    ∧ (request outcome rand retries).result
        = .raised (errOfAttempt (outcome k)) := by
  have hk : k < retries.toNat := by omega
  have := requestGo_immediate_after_retryables outcome rand k retries.toNat 0 none
    (fun i hik => by simpa using hpre i hik) hk (by simpa using hi)
  simpa [request] using this

/-- All-retryable induction: with `fuel ≥ 1` iterations left and every
attempt failing retryably, the loop runs the whole budget, sleeps between
consecutive attempts, and surfaces the last attempt's error. -/
lemma requestGo_all_retryable {α : Type}
    (outcome : ℕ → AttemptRes α) (rand : ℕ → ℚ)
    (hall : ∀ i, isRetryable (outcome i) = true) :
    ∀ (fuel s : ℕ) (le : Option HTTPError), 1 ≤ fuel →
      (requestGo outcome rand fuel s le).attemptsMade = fuel
      ∧ (requestGo outcome rand fuel s le).sleeps.length = fuel - 1
      ∧ (requestGo outcome rand fuel s le).result
          = .raised (errOfAttempt (outcome (s + fuel - 1))) := by
  intro fuel
  induction fuel with
  | zero => intro s le h; omega
  | succ f ih =>
    intro s le _
    obtain ⟨ha, hs, hres⟩ := requestGo_retryable outcome rand f s le (hall s)
    by_cases hf : f = 0
    · subst hf
      rw [requestGo_zero] at ha hs hres
      refine ⟨by rw [ha], by rw [hs]; simp, ?_⟩
      rw [hres]; simp
    · have ihapp := ih (s + 1) (some (errOfAttempt (outcome s))) (by omega)
      refine ⟨by rw [ha, ihapp.1], ?_, ?_⟩
      · rw [hs, ihapp.2.1]; simp [hf]; omega
      · rw [hres, ihapp.2.2]
        have : s + 1 + f - 1 = s + (f + 1) - 1 := by omega
        rw [this]

/-- C4: With a positive budget `N` and every attempt failing retryably
(429, 5xx, URL error or connection error), `request` makes exactly `N`
attempts, sleeps exactly `N - 1` times between consecutive attempts, and
raises the `HTTPError` built from the last attempt's failure — errors from
earlier attempts are discarded. -/
theorem request_exhausts_budget {α : Type}
    (outcome : ℕ → AttemptRes α) (rand : ℕ → ℚ) (retries : ℤ)
    (hN : 1 ≤ retries)
    (hall : ∀ i, isRetryable (outcome i) = true) :
    (request outcome rand retries).attemptsMade = retries.toNat
    ∧ (request outcome rand retries).sleeps.length = retries.toNat - 1
    ∧ (request outcome rand retries).result
        = .raised (errOfAttempt (outcome (retries.toNat - 1))) := by
  have := requestGo_all_retryable outcome rand hall retries.toNat 0 none (by omega)
  simpa [request] using this

/-- C10: With `retries ≤ 0` the loop body never runs: no network attempt
is made, no sleep occurs, and `request` raises
`HTTPError("Request failed with no error details")` whose status code, body
and retry-after fields are all `None`. -/
theorem request_nonpositive_retries {α : Type}
    (outcome : ℕ → AttemptRes α) (rand : ℕ → ℚ) (retries : ℤ)
    (h : retries ≤ 0) :
    request outcome rand retries
      = ⟨0, [], .raised ⟨"Request failed with no error details", none, none, none⟩⟩ := by
  have h0 : retries.toNat = 0 := by omega
  rw [request, h0, requestGo_zero]
  rfl

/-- Concrete attempt sequence: one transient URL error, then an HTTP 404. -/
def ocC1 : ℕ → AttemptRes Unit := fun i =>
  if i = 0 then .urlErr "temporary" else .httpErr 404 "Not Found" (some "missing") none

/-- Witness for `request_immediate_failure_no_retry`: with a budget of 3, a
URL error on attempt 0 followed by a 404 on attempt 1 stops after 2 attempts
and 1 sleep, raising the 404 error. -/
theorem request_immediate_failure_no_retry_witness :
    (request ocC1 (fun _ => 0) 3).attemptsMade = 2
    ∧ (request ocC1 (fun _ => 0) 3).sleeps.length = 1
    ∧ (request ocC1 (fun _ => 0) 3).result
        = .raised ⟨"HTTP 404: Not Found", some 404, some "missing", none⟩ := by
  have h := request_immediate_failure_no_retry ocC1 (fun _ => 0) 3 1
    (by decide) (by norm_num) (by decide)
  exact ⟨h.1, h.2.1, by rw [h.2.2]; decide⟩

/-- Concrete attempt sequence: HTTP 500 on every attempt. -/
def ocC4 : ℕ → AttemptRes Unit := fun _ =>
  .httpErr 500 "Internal Server Error" none none

/-- Witness for `request_exhausts_budget`: a 500 on every attempt with a
budget of 3 gives exactly 3 attempts, 2 sleeps, and the final 500 error. -/
theorem request_exhausts_budget_witness :
    (request ocC4 (fun _ => 0) 3).attemptsMade = 3
    ∧ (request ocC4 (fun _ => 0) 3).sleeps.length = 2
    ∧ (request ocC4 (fun _ => 0) 3).result
        = .raised ⟨"HTTP 500: Internal Server Error", some 500, none, none⟩ := by
  have h := request_exhausts_budget ocC4 (fun _ => 0) 3 (by norm_num) (fun _ => rfl)
  exact ⟨by rw [h.1]; decide, by rw [h.2.1]; decide, by rw [h.2.2]; decide⟩

/-- Witness for `request_nonpositive_retries` at `retries = 0`. -/
theorem request_nonpositive_retries_witness :
    request (fun _ => AttemptRes.urlErr (α := Unit) "unreachable") (fun _ => 0) 0
      = ⟨0, [], .raised ⟨"Request failed with no error details", none, none, none⟩⟩ :=
  request_nonpositive_retries (fun _ => AttemptRes.urlErr (α := Unit) "unreachable")
    (fun _ => 0) 0 (by norm_num)

/-- Predicate `isPrefList pat l`: holds when the char list `pat` is a prefix of `l`. -/
def isPrefList : List Char → List Char → Bool
  | [], _ => true
  | _ :: _, [] => false
  | a :: as, b :: bs => a == b && isPrefList as bs

/-- Python `s.startswith(p)`. -/
def pyStartsWith (s p : String) : Bool := isPrefList p.data s.data

/-- Python `s.endswith(p)`. -/
def pyEndsWith (s p : String) : Bool := isPrefList p.data.reverse s.data.reverse

/-- Python `rstrip("/")` on char lists: remove every trailing `'/'`. -/
def rstripSlashL : List Char → List Char
  | [] => []
  | c :: cs =>
    let r := rstripSlashL cs
    if r.isEmpty then (if c == '/' then [] else [c]) else c :: r

/-- Python `path.rstrip("/")`. -/
def rstripSlash (s : String) : String := ⟨rstripSlashL s.data⟩

/-- The path normalization of `get_reddit_json` in http.py:

```
if not path.startswith('/'):
    path = '/' + path
path = path.rstrip('/')
if not path.endswith('.json'):
    path = path + '.json'
```
-/
def normalizeRedditPath (path : String) : String :=
  let p1 := if pyStartsWith path "/" then path else "/" ++ path
  let p2 := rstripSlash p1
  if pyEndsWith p2 ".json" then p2 else p2 ++ ".json"

/-- The URL `get_reddit_json` requests:
`f"https://www.reddit.com{path}?raw_json=1"` after normalization. -/
def reddit_url (path : String) : String :=
  "https://www.reddit.com" ++ normalizeRedditPath path ++ "?raw_json=1"

example : normalizeRedditPath "/r/rust/comments/abc/" = "/r/rust/comments/abc.json" := by decide
example : normalizeRedditPath "r/rust" = "/r/rust.json" := by decide
example : normalizeRedditPath "/a/b.json" = "/a/b.json" := by decide

/-- C6 (counterexample): For the empty input path the normalized path is
`".json"`, which does not begin with `'/'`: the leading slash ensured by the
first step is removed again by `rstrip('/')`, so the claimed invariant
"the resulting path always begins with '/'" fails. -/
theorem reddit_path_empty_no_leading_slash :
    normalizeRedditPath "" = ".json"
    ∧ pyStartsWith (normalizeRedditPath "") "/" = false := by decide

lemma isPrefList_append_self : ∀ l m : List Char, isPrefList l (l ++ m) = true := by
  intro l m
  induction l with
  | nil => rfl
  | cons a as ih => simp [isPrefList, ih]

lemma pyEndsWith_append_self (s t : String) : pyEndsWith (s ++ t) t = true := by
  cases s with
  | mk ls =>
    cases t with
    | mk lt =>
      show isPrefList lt.reverse (ls ++ lt).reverse = true
      rw [List.reverse_append]
      exact isPrefList_append_self lt.reverse ls.reverse

lemma data_append_eq (s t : String) : (s ++ t).data = s.data ++ t.data := by
  cases s; cases t; rfl

lemma rstripSlashL_eq_nil_iff : ∀ l : List Char,
    rstripSlashL l = [] ↔ ∀ c ∈ l, c = '/' := by
  intro l
  induction l with
  | nil => simp [rstripSlashL]
  | cons c cs ih =>
    simp only [rstripSlashL]
    by_cases hr : rstripSlashL cs = []
    · have hcs : ∀ x ∈ cs, x = '/' := ih.mp hr
      simp only [hr, List.isEmpty_nil, if_true]
      by_cases hc : c = '/'
      · subst hc
        simp only [beq_self_eq_true, if_true, true_iff]
        intro x hx
        rcases List.mem_cons.mp hx with h1 | h2
        · exact h1
        · exact hcs x h2
      · have hcb : (c == '/') = false := beq_eq_false_iff_ne.mpr hc
        simp only [hcb, Bool.false_eq_true, if_false]
        constructor
        · intro h; exact absurd h (by simp)
        · intro h; exact absurd (h c (List.mem_cons_self c cs)) hc
    · have hre : (rstripSlashL cs).isEmpty = false := by
        cases h : rstripSlashL cs with
        | nil => exact absurd h hr
        | cons a as => rfl
      simp only [hre, Bool.false_eq_true, if_false]
      constructor
      · intro h; exact absurd h (List.cons_ne_nil c (rstripSlashL cs))
      · intro h
        exact absurd (ih.mpr fun x hx => h x (List.mem_cons_of_mem c hx)) hr

lemma rstripSlashL_cons_head : ∀ (c : Char) (cs : List Char),
    rstripSlashL (c :: cs) = [] ∨ ∃ t, rstripSlashL (c :: cs) = c :: t := by
  intro c cs
  simp only [rstripSlashL]
  by_cases hr : (rstripSlashL cs).isEmpty = true
  · by_cases hc : (c == '/') = true
    · left; simp [hr, hc]
    · right; exact ⟨[], by simp [hr, hc]⟩
  · right
    refine ⟨rstripSlashL cs, ?_⟩
    simp only [Bool.not_eq_true] at hr
    simp [hr]

/-- The leading-slash step of `get_reddit_json`: the resulting path data
starts with `'/'` and contains every character of the input. -/
lemma ensureSlash_data (path : String) :
    ∃ tail, (if pyStartsWith path "/" then path else "/" ++ path).data
        = '/' :: tail ∧ path.data ⊆ '/' :: tail := by
  by_cases hs : pyStartsWith path "/" = true
  · rw [if_pos hs]
    cases hpath : path.data with
    | nil =>
      exfalso
      unfold pyStartsWith at hs
      rw [hpath] at hs
      simp [isPrefList] at hs
    | cons a rest =>
      have hb : (('/' : Char) == a) = true := by
        unfold pyStartsWith at hs
        rw [hpath] at hs
        simpa [isPrefList] using hs
      have ha : a = '/' := (beq_iff_eq.mp hb).symm
      subst ha
      exact ⟨rest, rfl, fun x hx => hx⟩
  · rw [if_neg hs]
    have hd : ("/" ++ path).data = '/' :: path.data := by
      rw [data_append_eq]; rfl
    exact ⟨path.data, hd, fun x hx => List.mem_cons_of_mem '/' hx⟩

/-- If the input path contains a non-slash character, the normalized path
starts with `'/'`. -/
lemma normalizeRedditPath_head (path : String)
    (h : ∃ c ∈ path.data, c ≠ '/') :
    ∃ t, (normalizeRedditPath path).data = '/' :: t := by
  obtain ⟨w, hw, hws⟩ := h
  obtain ⟨tail, hp1, hsub⟩ := ensureSlash_data path
  have hwmem : w ∈ '/' :: tail := hsub hw
  have hne : rstripSlashL ('/' :: tail) ≠ [] := by
    intro hnil
    exact hws ((rstripSlashL_eq_nil_iff _).mp hnil w hwmem)
  obtain ⟨t, ht⟩ := (rstripSlashL_cons_head '/' tail).resolve_left hne
  have hp2 : (rstripSlash (if pyStartsWith path "/" then path else "/" ++ path)).data
      = '/' :: t := by
    show rstripSlashL (if pyStartsWith path "/" then path else "/" ++ path).data = '/' :: t
    rw [hp1, ht]
  show ∃ t', (let p1 := if pyStartsWith path "/" then path else "/" ++ path;
    let p2 := rstripSlash p1;
    if pyEndsWith p2 ".json" then p2 else p2 ++ ".json").data = '/' :: t'
  simp only []
  set q := rstripSlash (if pyStartsWith path "/" then path else "/" ++ path) with hq
  by_cases hj : pyEndsWith q ".json" = true
  · rw [if_pos hj]
    exact ⟨t, hp2⟩
  · rw [if_neg hj]
    refine ⟨t ++ ".json".data, ?_⟩
    rw [data_append_eq, hp2]
    rfl

/-- C6 (amended): `get_reddit_json` normalizes the path exactly as the
three steps describe, requests
`"https://www.reddit.com" ++ path ++ "?raw_json=1"`, and the resulting path
always ends with `".json"`; it begins with `'/'` whenever the input contains
at least one character other than `'/'` (for an empty or all-slash input the
`rstrip` step removes the ensured leading slash and the result is the bare
`".json"`). -/
theorem reddit_path_normalization (path : String) :
    pyEndsWith (normalizeRedditPath path) ".json" = true
    ∧ ((∃ c ∈ path.data, c ≠ '/') →
        pyStartsWith (normalizeRedditPath path) "/" = true)
    ∧ reddit_url path
        = "https://www.reddit.com" ++ normalizeRedditPath path ++ "?raw_json=1" := by
  refine ⟨?_, ?_, rfl⟩
  · show pyEndsWith (let p1 := if pyStartsWith path "/" then path else "/" ++ path;
      let p2 := rstripSlash p1;
      if pyEndsWith p2 ".json" then p2 else p2 ++ ".json") ".json" = true
    simp only []
    set q := rstripSlash (if pyStartsWith path "/" then path else "/" ++ path) with hq
    by_cases h : pyEndsWith q ".json" = true
    · rw [if_pos h]; exact h
    · rw [if_neg h]
      exact pyEndsWith_append_self q ".json"
  · intro h
    obtain ⟨t, ht⟩ := normalizeRedditPath_head path h
    unfold pyStartsWith
    rw [ht]
    simp [isPrefList]

/-- Witness for `reddit_path_normalization` at the concrete path
`"r/rust/"` (which contains non-slash characters). -/
theorem reddit_path_normalization_witness :
    pyEndsWith (normalizeRedditPath "r/rust/") ".json" = true
    ∧ pyStartsWith (normalizeRedditPath "r/rust/") "/" = true :=
  ⟨(reddit_path_normalization "r/rust/").1,
   (reddit_path_normalization "r/rust/").2.1 ⟨'r', by decide, by decide⟩⟩

/-- A `schema.WebSearchItem` as constructed by
`normalize_websearch_items` in websearch.py (schema.py itself only declares
these fields): id, title, url, source domain, snippet, optional date, date
confidence, relevance score and relevance rationale.  `dedupe_websearch`
reads only `url`. -/
structure WebSearchItem where
  id : String
  title : String
  url : String
  source_domain : String
  snippet : String
  date : Option String
  date_confidence : String
  relevance : ℚ
  why_relevant : String
deriving DecidableEq, Repr

/-- The URL normalization `item.url.lower().rstrip("/")` used as the
deduplication key in `dedupe_websearch` (ASCII case folding, trailing
slashes stripped). -/
def urlKey (u : String) : String := ⟨rstripSlashL (u.data.map Char.toLower)⟩

/-- The loop of `dedupe_websearch` in websearch.py, with the Python `set`
`seen_urls` modeled as the list of keys added so far:

```
for item in items:
    url_key = item.url.lower().rstrip("/")
    if url_key not in seen_urls:
        seen_urls.add(url_key)
        result.append(item)
```
-/
def dedupeAux (seen : List String) : List WebSearchItem → List WebSearchItem
  | [] => []
  | x :: xs =>
    let k := urlKey x.url
    if k ∈ seen then dedupeAux seen xs
    else x :: dedupeAux (k :: seen) xs

/-- Function `dedupe_websearch(items)` from websearch.py: start with an empty seen
set and an empty result. -/
def dedupe_websearch (items : List WebSearchItem) : List WebSearchItem :=
  dedupeAux [] items

lemma dedupeAux_sublist (seen : List String) :
    ∀ l : List WebSearchItem, (dedupeAux seen l).Sublist l := by
  intro l
  induction l generalizing seen with
  | nil => simp [dedupeAux]
  | cons x xs ih =>
    simp only [dedupeAux]
    by_cases hk : urlKey x.url ∈ seen
    · rw [if_pos hk]
      exact (ih seen).cons x
    · rw [if_neg hk]
      exact (ih (urlKey x.url :: seen)).cons₂ x

lemma dedupeAux_key_not_seen (seen : List String) :
    ∀ (l : List WebSearchItem) (it : WebSearchItem),
      it ∈ dedupeAux seen l → urlKey it.url ∉ seen := by
  intro l
  induction l generalizing seen with
  | nil => intro it h; simp [dedupeAux] at h
  | cons x xs ih =>
    intro it h
    simp only [dedupeAux] at h
    by_cases hk : urlKey x.url ∈ seen
    · rw [if_pos hk] at h
      exact ih seen it h
    · rw [if_neg hk] at h
      rcases List.mem_cons.mp h with h1 | h2
      · subst h1; exact hk
      · intro hmem
        exact ih (urlKey x.url :: seen) it h2 (List.mem_cons_of_mem _ hmem)

lemma dedupeAux_keys_nodup (seen : List String) :
    ∀ l : List WebSearchItem,
      ((dedupeAux seen l).map (fun it => urlKey it.url)).Nodup := by
  intro l
  induction l generalizing seen with
  | nil => simp [dedupeAux]
  | cons x xs ih =>
    simp only [dedupeAux]
    by_cases hk : urlKey x.url ∈ seen
    · rw [if_pos hk]; exact ih seen
    · rw [if_neg hk]
      simp only [List.map_cons, List.nodup_cons]
      refine ⟨?_, ih (urlKey x.url :: seen)⟩
      intro hmem
      obtain ⟨it, hit, hkey⟩ := List.mem_map.mp hmem
      exact dedupeAux_key_not_seen (urlKey x.url :: seen) xs it hit
        (hkey ▸ List.mem_cons_self _ _)

lemma dedupeAux_key_mem (seen : List String) :
    ∀ (l : List WebSearchItem) (k : String),
      k ∈ (dedupeAux seen l).map (fun it => urlKey it.url)
        ↔ k ∈ l.map (fun it => urlKey it.url) ∧ k ∉ seen := by
  intro l
  induction l generalizing seen with
  | nil => intro k; simp [dedupeAux]
  | cons x xs ih =>
    intro k
    simp only [dedupeAux, List.map_cons, List.mem_cons]
    by_cases hk : urlKey x.url ∈ seen
    · rw [if_pos hk, ih seen]
      constructor
      · intro ⟨h1, h2⟩; exact ⟨Or.inr h1, h2⟩
      · intro ⟨h1, h2⟩
        rcases h1 with h1 | h1
        · exact absurd (h1 ▸ hk) h2
        · exact ⟨h1, h2⟩
    · rw [if_neg hk]
      simp only [List.map_cons, List.mem_cons, ih (urlKey x.url :: seen)]
      constructor
      · intro h
        rcases h with h | ⟨h1, h2⟩
        · exact ⟨Or.inl h, h ▸ hk⟩
        · exact ⟨Or.inr h1, fun hmem => h2 (Or.inr hmem)⟩
      · intro ⟨h1, h2⟩
        rcases h1 with h1 | h1
        · exact Or.inl h1
        · by_cases hkk : k = urlKey x.url
          · exact Or.inl hkk
          · exact Or.inr ⟨h1, fun hmem => hmem.elim hkk h2⟩

lemma dedupeAux_first_occurrence (seen : List String) :
    ∀ (l : List WebSearchItem) (it : WebSearchItem),
      it ∈ dedupeAux seen l →
      (l.filter (fun y => urlKey y.url == urlKey it.url)).head? = some it := by
  intro l
  induction l generalizing seen with
  | nil => intro it h; simp [dedupeAux] at h
  | cons x xs ih =>
    intro it h
    simp only [dedupeAux] at h
    by_cases hk : urlKey x.url ∈ seen
    · rw [if_pos hk] at h
      have hne : urlKey x.url ≠ urlKey it.url := by
        intro he
        exact dedupeAux_key_not_seen seen xs it h (he ▸ hk)
      rw [List.filter_cons]
      simp only [beq_eq_false_iff_ne.mpr hne, Bool.false_eq_true, if_false]
      exact ih seen it h
    · rw [if_neg hk] at h
      rcases List.mem_cons.mp h with h1 | h2
      · subst h1
        rw [List.filter_cons]
        simp
      · have hne : urlKey x.url ≠ urlKey it.url := by
          intro he
          exact dedupeAux_key_not_seen (urlKey x.url :: seen) xs it h2
            (he ▸ List.mem_cons_self _ _)
        rw [List.filter_cons]
        simp only [beq_eq_false_iff_ne.mpr hne, Bool.false_eq_true, if_false]
        exact ih (urlKey x.url :: seen) it h2

/-- C9: `dedupe_websearch` returns a subsequence of its input (relative
order preserved, items unmodified) in which each distinct URL key — the URL
lowercased with trailing slashes stripped — appears exactly once; every key
of the input survives, and the representative kept for each key is exactly
the first input item bearing it. -/
theorem dedupe_websearch_spec (items : List WebSearchItem) :
    (dedupe_websearch items).Sublist items
    ∧ ((dedupe_websearch items).map (fun it => urlKey it.url)).Nodup
    ∧ (∀ k, k ∈ items.map (fun it => urlKey it.url)
        ↔ k ∈ (dedupe_websearch items).map (fun it => urlKey it.url))
    ∧ (∀ it, it ∈ dedupe_websearch items →
        (items.filter (fun y => urlKey y.url == urlKey it.url)).head? = some it) := by
  refine ⟨dedupeAux_sublist [] items, dedupeAux_keys_nodup [] items, ?_, ?_⟩
  · intro k
    show k ∈ List.map (fun it => urlKey it.url) items
      ↔ k ∈ List.map (fun it => urlKey it.url) (dedupeAux [] items)
    rw [dedupeAux_key_mem [] items k]
    simp
  · intro it hit
    exact dedupeAux_first_occurrence [] items it hit

/-- Two concrete items whose URLs normalize to the same key `"http://a/b"`. -/
def itemA : WebSearchItem :=
  ⟨"W1", "A", "http://A/b/", "a", "s1", none, "low", 1/2, ""⟩

/-- A duplicate of `itemA` under URL normalization. -/
def itemB : WebSearchItem :=
  ⟨"W2", "B", "http://a/b", "a", "s2", none, "low", 1/2, ""⟩

/-- Witness for `dedupe_websearch_spec` on `[itemA, itemB]`: the key of
`itemB` is already present via `itemA`, so only `itemA` is kept, and it is
the head of the items sharing that key. -/
theorem dedupe_websearch_spec_witness :
    urlKey itemB.url ∈ ([itemA, itemB].map (fun it => urlKey it.url))
    ∧ (urlKey itemB.url
        ∈ (dedupe_websearch [itemA, itemB]).map (fun it => urlKey it.url))
    ∧ ([itemA, itemB].filter
        (fun y => urlKey y.url == urlKey itemA.url)).head? = some itemA := by
  refine ⟨by decide, ?_, ?_⟩
  · exact (dedupe_websearch_spec [itemA, itemB]).2.2.1 (urlKey itemB.url) |>.mp (by decide)
  · refine (dedupe_websearch_spec [itemA, itemB]).2.2.2 itemA ?_
    have h : dedupe_websearch [itemA, itemB] = [itemA] := by rfl
    rw [h]
    exact List.mem_cons_self _ _

end Last30
